import Mathlib

/-!
Shallow embedding of `compute_OO_distances` from `MDTraj/geometry/water.py`
(the shell-extraction core of the repository).

The function consumes a dense pairwise O-O distance tensor of shape
`(F, W, W)` (frames x waters x waters) together with a mode string `which`,
and returns a selection of distances per `(frame, water)` pair.  Distances in
the source are floating-point values produced by an external capability
(`md.compute_distances` plus `squareform`); the core itself performs no
arithmetic on them — only comparisons, sorting, argsorting and gathering —
so they are modelled as rationals (any linear order would do).

The tensor is modelled as a total function `ℕ → ℕ → ℕ → ℚ` together with its
dimensions `F` and `W`; all statements are about in-range indices.

Numpy-specific behaviours modelled here:
  * `distances.sort()` sorts the last axis in place (the non-shell branch of
    the source mutates the tensor); `extract` therefore returns the final
    state of the tensor next to the output.
  * `np.argsort(distances, axis=2)[:, :, 1:5]` is modelled by a stable
    argsort (`argsortRow`) followed by `drop 1` / `take 4`; numpy's default
    `kind='quicksort'` does not promise a stable order among equal keys, so
    any tie-breaking property read off `argsortRow` is a property of this
    model, not a contract of the source.
  * with fewer than two waters the pair-index list
    `[(i, j) for i in xrange(n) for j in xrange(i+1, n)]` is empty, so
    `np.array` builds an empty float array and `oxygens[water_inds]` raises
    `IndexError` before any distance is computed; this failure is modelled
    by the `insufficientData` error.
  * the mode check `which = which.lower(); if not which in possible_which:
    raise Exception(...)` happens first; the raised exception is modelled by
    the `invalidMode` error.
-/

/-- Distance tensor: frame index, water index, water index to distance. -/
abbrev Tensor : Type := ℕ → ℕ → ℕ → ℚ

/-- Failure modes of `compute_OO_distances`: the explicit
`Exception("which must be one of ...")` for a bad mode string, and the
`IndexError` arising from indexing with the empty pair list when fewer than
two waters are present. -/
inductive WaterError where
  | invalidMode
  | insufficientData
deriving DecidableEq

instance {ε α : Type} [DecidableEq ε] [DecidableEq α] : DecidableEq (Except ε α) := fun x y =>
  match x, y with
  | .ok a, .ok b =>
      if h : a = b then isTrue (h ▸ rfl) else isFalse fun hc => h (Except.ok.inj hc)
  | .ok _, .error _ => isFalse fun hc => Except.noConfusion hc
  | .error _, .ok _ => isFalse fun hc => Except.noConfusion hc
  | .error e, .error e' =>
      if h : e = e' then isTrue (h ▸ rfl) else isFalse fun hc => h (Except.error.inj hc)

/-- Mode string selecting all distances. -/
def allMode : String := "all"

/-- Mode string selecting the first solvation shell. -/
def firstShellMode : String := "firstshell"

/-- Mode string selecting the second solvation shell. -/
def secondShellMode : String := "secondshell"

/-- Mode string selecting both shells. -/
def bothShellsMode : String := "bothshells"

/-- Models `possible_which = ['all', 'firstshell', 'secondshell', 'bothshells']`. -/
def possibleWhich : List String := [allMode, firstShellMode, secondShellMode, bothShellsMode]

/-- Models Python `str.lower` on a single character (ASCII case folding). -/
def charLower (c : Char) : Char :=
  if 'A' ≤ c ∧ c ≤ 'Z' then Char.ofNat (c.toNat + 32) else c

/-- Models Python `which.lower()`. -/
def strLower (s : String) : String := ⟨s.data.map charLower⟩

/-- Sublist containment on character lists, models Python `sub in s`. -/
def listContains (pat : List Char) : List Char → Bool
  | [] => pat.isEmpty
  | c :: t => pat.isPrefixOf (c :: t) || listContains pat t

/-- Models `'shell' in which`. -/
def strContainsShell (s : String) : Bool := listContains ("shell".data) s.data

/-- Row `D[f, w, :]` of the tensor as a list of length `W`. -/
def waterRow (W : ℕ) (D : Tensor) (f w : ℕ) : List ℚ := (List.range W).map (D f w)

/-- Comparison of index/value pairs by value, the key order used by argsort. -/
def sndLe (a b : ℕ × ℚ) : Prop := a.2 ≤ b.2

instance : DecidableRel sndLe := fun a b => inferInstanceAs (Decidable (a.2 ≤ b.2))

instance : IsTotal (ℕ × ℚ) sndLe := ⟨fun a b => le_total a.2 b.2⟩

instance : IsTrans (ℕ × ℚ) sndLe := ⟨fun _ _ _ h h' => le_trans h h'⟩

/-- Models `row.sort()` for one row: ascending value sort of the last axis.
Numpy's unstable value sort and any other correct sort produce the same list
of values, so `insertionSort` is a faithful model. -/
def sortRow (l : List ℚ) : List ℚ := l.insertionSort (· ≤ ·)

/-- Models `np.argsort(row)`: the indices of `row` ordered by ascending
value.  Implemented as a stable argsort (sort the index/value pairs by value,
keep the indices); numpy's default `kind='quicksort'` is not guaranteed
stable, so the tie order here is a model choice. -/
def argsortRow (l : List ℚ) : List ℕ := (l.enum.insertionSort sndLe).map Prod.fst

/-- Models `first_shell_inds[f, w] = np.argsort(distances, axis=2)[f, w, 1:5]`:
indices of the four closest waters, the self index at rank 0 excluded. -/
def firstShellInds (W : ℕ) (D : Tensor) (f w : ℕ) : List ℕ :=
  ((argsortRow (waterRow W D f w)).drop 1).take 4

/-- Models `second_shell_inds[f, w] = first_shell_inds[f, first_shell_inds[f, w]]`
flattened from shape `(4, 4)` to `16`: for each first-shell neighbour, that
neighbour's own first-shell indices. -/
def secondShellInds (W : ℕ) (D : Tensor) (f w : ℕ) : List ℕ :=
  (firstShellInds W D f w).flatMap (fun j => firstShellInds W D f j)

/-- State of the tensor after `distances.sort()`: every in-range row is
replaced by its ascending sort; out-of-range entries (which do not exist in
the numpy array) are untouched. -/
def sortedTensor (F W : ℕ) (D : Tensor) : Tensor := fun f w j =>
  if f < F ∧ w < W ∧ j < W then (sortRow (waterRow W D f w)).getD j 0 else D f w j

/-- Index lists gathered per `(frame, water)` in the shell branch of the
source (`inds` in the Python code). -/
def shellInds (W : ℕ) (D : Tensor) (whichL : String) (f w : ℕ) : List ℕ :=
  if whichL = firstShellMode then firstShellInds W D f w
  else if whichL = secondShellMode then secondShellInds W D f w
  else firstShellInds W D f w ++ secondShellInds W D f w

/-- Shallow embedding of `compute_OO_distances` over a precomputed distance
tensor (the spec's `extract(distances, mode)` contract).  Returns the output
array together with the final state of the tensor: the non-shell branch of
the source runs `distances.sort()`, an in-place mutation, and then slices off
the first column; the shell branch argsorts without mutating and gathers
`distances[i0, i1, inds]`, i.e. the distances are always read from the
original water's row. -/
def extract (F W : ℕ) (D : Tensor) (which : String) :
    Except WaterError (List (List (List ℚ)) × Tensor) :=
  let whichL := strLower which
  if whichL ∈ possibleWhich then
    if 2 ≤ W then
      if strContainsShell whichL then
        .ok ((List.range F).map fun f => (List.range W).map fun w =>
              (shellInds W D whichL f w).map (D f w), D)
      else
        .ok ((List.range F).map fun f => (List.range W).map fun w =>
              (sortRow (waterRow W D f w)).drop 1, sortedTensor F W D)
    else .error .insufficientData
  else .error .invalidMode

/-- Output component of `extract`. -/
def extractOut (F W : ℕ) (D : Tensor) (which : String) :
    Except WaterError (List (List (List ℚ))) :=
  (extract F W D which).map Prod.fst

/-- Final state of the caller's tensor after `extract` (unchanged when the
call fails before touching it). -/
def extractTensorAfter (F W : ℕ) (D : Tensor) (which : String) : Tensor :=
  match extract F W D which with
  | .ok (_, D') => D'
  | .error _ => D

/-- Row `(f, w)` of a successful `extract` output (empty list on failure or
out of range). -/
def outRow (F W : ℕ) (D : Tensor) (which : String) (f w : ℕ) : List ℚ :=
  match extractOut F W D which with
  | .ok o => (o.getD f []).getD w []
  | .error _ => []

/-- Row `D[f, w, :]` with the diagonal (self-distance) entry removed. -/
def offdiagRow (W : ℕ) (D : Tensor) (f w : ℕ) : List ℚ :=
  ((List.range W).erase w).map (D f w)

/-- Well-formedness of a distance tensor, as assumed by the source: the
external `squareform` capability produces a tensor symmetric in the last two
axes with zero diagonal, and distances are Euclidean hence nonnegative. -/
def WellFormed (F W : ℕ) (D : Tensor) : Prop :=
  (∀ f < F, ∀ i < W, ∀ j < W, D f i j = D f j i) ∧
  (∀ f < F, ∀ i < W, D f i i = 0) ∧
  (∀ f < F, ∀ i < W, ∀ j < W, 0 ≤ D f i j)

instance (F W : ℕ) (D : Tensor) : Decidable (WellFormed F W D) :=
  inferInstanceAs (Decidable ((∀ f < F, ∀ i < W, ∀ j < W, D f i j = D f j i) ∧
    (∀ f < F, ∀ i < W, D f i i = 0) ∧
    (∀ f < F, ∀ i < W, ∀ j < W, 0 ≤ D f i j)))

/-- Row 0 of the spec's concrete scenario: `F=1, W=6`, distances
`[0, 2, 5, 1, 8, 3]` from water 0. -/
def row0ex : List ℚ := [0, 2, 5, 1, 8, 3]

/-- Concrete well-formed 6-water tensor realising the spec's scenario:
row 0 is `[0, 2, 5, 1, 8, 3]`, the rest is filled in symmetrically. -/
def Dex6 : Tensor := fun _ i j =>
  if i = j then 0
  else if i = 0 then row0ex.getD j 0
  else if j = 0 then row0ex.getD i 0
  else mkRat (Int.ofNat (i + j)) 1

/-- Concrete two-water tensor with an unsorted second row, separating the
tensor state before and after an `all`-mode call. -/
def Dex2 : Tensor := fun _ i j => if i = j then 0 else 5

/-- Mixed-case mode string used to check case-insensitivity. -/
def mixedCaseMode : String := "FirstShell"

/-- Unrecognised mode string. -/
def bananaMode : String := "banana"

example : strLower mixedCaseMode = firstShellMode := by decide

example : outRow 1 6 Dex6 allMode 0 0 = [1, 2, 3, 5, 8] := by decide

example : outRow 1 6 Dex6 firstShellMode 0 0 = [1, 2, 3, 5] := by decide

/-! ### Basic facts about the sorting primitives -/

theorem length_sortRow (l : List ℚ) : (sortRow l).length = l.length :=
  List.length_insertionSort _ l

theorem sorted_sortRow (l : List ℚ) : List.Sorted (· ≤ ·) (sortRow l) :=
  List.sorted_insertionSort _ l

theorem perm_sortRow (l : List ℚ) : List.Perm (sortRow l) l :=
  List.perm_insertionSort _ l

theorem length_argsortRow (l : List ℚ) : (argsortRow l).length = l.length := by
  simp [argsortRow, List.length_insertionSort]

theorem mem_argsortRow_lt {l : List ℚ} {i : ℕ} (h : i ∈ argsortRow l) : i < l.length := by
  rcases List.mem_map.mp h with ⟨p, hp, rfl⟩
  have hp' : p ∈ l.enum := (List.perm_insertionSort sndLe l.enum).subset hp
  have := List.mem_enum_iff_getElem?.mp hp'
  exact (List.getElem?_eq_some.mp this).1

theorem argsortRow_map_getD (l : List ℚ) :
    (argsortRow l).map (fun i => l.getD i 0) = sortRow l := by
  unfold argsortRow
  rw [List.map_map]
  have h1 : ∀ p ∈ l.enum.insertionSort sndLe,
      ((fun i => l.getD i 0) ∘ Prod.fst) p = Prod.snd p := by
    intro p hp
    have hp' : p ∈ l.enum := (List.perm_insertionSort sndLe l.enum).subset hp
    have h2 := List.mem_enum_iff_getElem?.mp hp'
    rcases List.getElem?_eq_some.mp h2 with ⟨hlt, hval⟩
    simp only [Function.comp_apply]
    rw [List.getD_eq_getElem l 0 hlt, hval]
  rw [List.map_congr_left h1]
  refine List.eq_of_perm_of_sorted ?_ ?_ (sorted_sortRow l)
  · refine ((List.perm_insertionSort sndLe l.enum).map Prod.snd).trans ?_
    rw [List.enum_map_snd]
    exact (perm_sortRow l).symm
  · exact (List.sorted_insertionSort sndLe l.enum).map _ (fun a b hab => hab)

theorem length_waterRow (W : ℕ) (D : Tensor) (f w : ℕ) :
    (waterRow W D f w).length = W := by
  simp [waterRow]

theorem getD_range_map {α : Type} (g : ℕ → α) (n f : ℕ) (d : α) (h : f < n) :
    ((List.range n).map g).getD f d = g f := by
  rw [List.getD_eq_getElem _ _ (by simpa using h)]
  simp

theorem waterRow_getD (W : ℕ) (D : Tensor) (f w j : ℕ) (hj : j < W) :
    (waterRow W D f w).getD j 0 = D f w j :=
  getD_range_map (D f w) W j 0 hj

theorem argsortRow_map_row (W : ℕ) (D : Tensor) (f w : ℕ) :
    (argsortRow (waterRow W D f w)).map (D f w) = sortRow (waterRow W D f w) := by
  rw [← argsortRow_map_getD]
  refine List.map_congr_left ?_
  intro i hi
  exact (waterRow_getD W D f w i (by simpa [length_waterRow] using mem_argsortRow_lt hi)).symm

/-! ### Decomposing a sorted row into the self-distance and the rest -/

theorem perm_waterRow_cons (W : ℕ) (D : Tensor) (f w : ℕ) (hw : w < W) :
    List.Perm (waterRow W D f w) (D f w w :: offdiagRow W D f w) := by
  have hmem : w ∈ List.range W := List.mem_range.mpr hw
  simpa [waterRow, offdiagRow] using (List.perm_cons_erase hmem).map (D f w)

theorem mem_offdiagRow {W : ℕ} {D : Tensor} {f w : ℕ} {x : ℚ}
    (hx : x ∈ offdiagRow W D f w) : ∃ j, j < W ∧ D f w j = x := by
  rcases List.mem_map.mp hx with ⟨j, hj, rfl⟩
  exact ⟨j, List.mem_range.mp (List.mem_of_mem_erase hj), rfl⟩

theorem length_offdiagRow (W : ℕ) (D : Tensor) (f w : ℕ) (hw : w < W) :
    (offdiagRow W D f w).length = W - 1 := by
  have hmem : w ∈ List.range W := List.mem_range.mpr hw
  have h := List.length_erase_add_one hmem
  simp only [List.length_range] at h
  simp only [offdiagRow, List.length_map]
  omega

theorem sortRow_waterRow_eq (F W : ℕ) (D : Tensor) (f w : ℕ)
    (hWF : WellFormed F W D) (hf : f < F) (hw : w < W) :
    sortRow (waterRow W D f w) = 0 :: sortRow (offdiagRow W D f w) := by
  refine List.eq_of_perm_of_sorted ?_ (sorted_sortRow _) ?_
  · refine (perm_sortRow _).trans ((perm_waterRow_cons W D f w hw).trans ?_)
    rw [hWF.2.1 f hf w hw]
    exact List.Perm.cons 0 (perm_sortRow _).symm
  · rw [List.sorted_cons]
    refine ⟨?_, sorted_sortRow _⟩
    intro b hb
    rcases mem_offdiagRow ((perm_sortRow _).subset hb) with ⟨j, hj, rfl⟩
    exact hWF.2.2 f hf w hw j hj

/-! ### Unfolding `extract` on the valid modes -/

theorem extract_of_shell (F W : ℕ) (D : Tensor) (which : String)
    (h1 : strLower which ∈ possibleWhich) (h2 : 2 ≤ W)
    (h3 : strContainsShell (strLower which) = true) :
    extract F W D which =
      .ok ((List.range F).map fun f => (List.range W).map fun w =>
            (shellInds W D (strLower which) f w).map (D f w), D) := by
  simp only [extract]
  rw [if_pos h1, if_pos h2, if_pos h3]

theorem extract_of_sortMode (F W : ℕ) (D : Tensor) (which : String)
    (h1 : strLower which ∈ possibleWhich) (h2 : 2 ≤ W)
    (h3 : strContainsShell (strLower which) = false) :
    extract F W D which =
      .ok ((List.range F).map fun f => (List.range W).map fun w =>
            (sortRow (waterRow W D f w)).drop 1, sortedTensor F W D) := by
  simp only [extract]
  rw [if_pos h1, if_pos h2, if_neg (by simp [h3])]

theorem outRow_of_shell (F W : ℕ) (D : Tensor) (which : String) (f w : ℕ)
    (h1 : strLower which ∈ possibleWhich) (h2 : 2 ≤ W)
    (h3 : strContainsShell (strLower which) = true) (hf : f < F) (hw : w < W) :
    outRow F W D which f w = (shellInds W D (strLower which) f w).map (D f w) := by
  unfold outRow extractOut
  rw [extract_of_shell F W D which h1 h2 h3]
  simp only [Except.map]
  rw [getD_range_map _ _ _ _ hf, getD_range_map _ _ _ _ hw]

theorem outRow_all (F W : ℕ) (D : Tensor) (f w : ℕ)
    (h2 : 2 ≤ W) (hf : f < F) (hw : w < W) :
    outRow F W D allMode f w = (sortRow (waterRow W D f w)).drop 1 := by
  unfold outRow extractOut
  rw [extract_of_sortMode F W D allMode (by decide) h2 (by decide)]
  simp only [Except.map]
  rw [getD_range_map _ _ _ _ hf, getD_range_map _ _ _ _ hw]

theorem outRow_firstShell (F W : ℕ) (D : Tensor) (f w : ℕ)
    (h2 : 2 ≤ W) (hf : f < F) (hw : w < W) :
    outRow F W D firstShellMode f w = (firstShellInds W D f w).map (D f w) := by
  rw [outRow_of_shell F W D firstShellMode f w (by decide) h2 (by decide) hf hw]
  have hL : strLower firstShellMode = firstShellMode := by decide
  rw [hL]
  simp [shellInds]

theorem outRow_secondShell (F W : ℕ) (D : Tensor) (f w : ℕ)
    (h2 : 2 ≤ W) (hf : f < F) (hw : w < W) :
    outRow F W D secondShellMode f w = (secondShellInds W D f w).map (D f w) := by
  rw [outRow_of_shell F W D secondShellMode f w (by decide) h2 (by decide) hf hw]
  have hL : strLower secondShellMode = secondShellMode := by decide
  rw [hL]
  have hne : ¬ (secondShellMode = firstShellMode) := by decide
  simp [shellInds, hne]

theorem outRow_bothShells (F W : ℕ) (D : Tensor) (f w : ℕ)
    (h2 : 2 ≤ W) (hf : f < F) (hw : w < W) :
    outRow F W D bothShellsMode f w =
      (firstShellInds W D f w ++ secondShellInds W D f w).map (D f w) := by
  rw [outRow_of_shell F W D bothShellsMode f w (by decide) h2 (by decide) hf hw]
  have hL : strLower bothShellsMode = bothShellsMode := by decide
  rw [hL]
  have hne1 : ¬ (bothShellsMode = firstShellMode) := by decide
  have hne2 : ¬ (bothShellsMode = secondShellMode) := by decide
  simp [shellInds, hne1, hne2]

/-! ### Shell index list lengths and values -/

theorem length_firstShellInds (W : ℕ) (D : Tensor) (f w : ℕ) :
    (firstShellInds W D f w).length = min 4 (W - 1) := by
  simp [firstShellInds, List.length_take, List.length_drop, length_argsortRow, length_waterRow]

theorem length_firstShellInds_of_ge (W : ℕ) (D : Tensor) (f w : ℕ) (h5 : 5 ≤ W) :
    (firstShellInds W D f w).length = 4 := by
  rw [length_firstShellInds]
  omega

theorem length_secondShellInds (W : ℕ) (D : Tensor) (f w : ℕ) (h5 : 5 ≤ W) :
    (secondShellInds W D f w).length = 16 := by
  rw [secondShellInds, List.length_flatMap]
  have h : ∀ j ∈ firstShellInds W D f w,
      (List.length ∘ fun j => firstShellInds W D f j) j = (fun _ => 4) j := by
    intro j _
    exact length_firstShellInds_of_ge W D f j h5
  rw [List.map_congr_left h]
  simp [List.map_const', length_firstShellInds_of_ge W D f w h5, mul_comm]

theorem getD_map_rat (g : ℕ → ℚ) (l : List ℕ) (n : ℕ) (h : n < l.length) :
    (l.map g).getD n 0 = g (l.getD n 0) := by
  rw [List.getD_eq_getElem _ _ (by simpa using h), List.getElem_map,
    List.getD_eq_getElem _ _ h]

theorem flatMap_getD_four {α : Type} (g : ℕ → List α) (d : α)
    (hlen : ∀ j, (g j).length = 4) :
    ∀ (l : List ℕ) (k m : ℕ), k < l.length → m < 4 →
      (l.flatMap g).getD (4 * k + m) d = (g (l.getD k 0)).getD m d := by
  intro l
  induction l with
  | nil =>
    intro k m hk _
    exact absurd hk (by simp)
  | cons a t ih =>
    intro k m hk hm
    rw [List.flatMap_cons]
    cases k with
    | zero =>
      rw [Nat.mul_zero, Nat.zero_add, List.getD_append _ _ _ m (by rw [hlen a]; exact hm)]
      simp
    | succ k =>
      rw [List.getD_append_right _ _ _ _ (by rw [hlen a]; omega)]
      have hidx : 4 * (k + 1) + m - (g a).length = 4 * k + m := by rw [hlen a]; omega
      rw [hidx, ih k m (by simpa using hk) hm]
      simp

theorem fs_values (F W : ℕ) (D : Tensor) (f w : ℕ)
    (h2 : 2 ≤ W) (hf : f < F) (hw : w < W) :
    outRow F W D firstShellMode f w = ((sortRow (waterRow W D f w)).drop 1).take 4 := by
  rw [outRow_firstShell F W D f w h2 hf hw]
  unfold firstShellInds
  rw [List.map_take, List.map_drop, argsortRow_map_row]

theorem fs_values_offdiag (F W : ℕ) (D : Tensor) (f w : ℕ)
    (hWF : WellFormed F W D) (h2 : 2 ≤ W) (hf : f < F) (hw : w < W) :
    outRow F W D firstShellMode f w = (sortRow (offdiagRow W D f w)).take 4 := by
  rw [fs_values F W D f w h2 hf hw, sortRow_waterRow_eq F W D f w hWF hf hw]
  rfl

theorem all_values_offdiag (F W : ℕ) (D : Tensor) (f w : ℕ)
    (hWF : WellFormed F W D) (h2 : 2 ≤ W) (hf : f < F) (hw : w < W) :
    outRow F W D allMode f w = sortRow (offdiagRow W D f w) := by
  rw [outRow_all F W D f w h2 hf hw, sortRow_waterRow_eq F W D f w hWF hf hw]
  rfl

/-! ### Claim theorems -/

/-- C1: for every well-formed symmetric distance tensor with zero diagonal,
`F ≥ 1` frames and `W ≥ 5` waters, `extract(D, "firstshell")` returns for
every in-range `(frame, water)` pair exactly the 4 smallest entries of row
`D[f, w, :]` excluding the diagonal self-distance, in ascending
(nearest-first) order, with last-axis length 4; and on the spec's concrete
scenario (`F = 1`, `W = 6`, row 0 equal to `[0, 2, 5, 1, 8, 3]`) water 0's
result is `[1, 2, 3, 5]`. -/
theorem firstshell_four_smallest :
    (∀ F W : ℕ, ∀ D : Tensor, ∀ f w : ℕ,
      WellFormed F W D → 5 ≤ W → f < F → w < W →
      outRow F W D firstShellMode f w = (sortRow (offdiagRow W D f w)).take 4 ∧
      List.Sorted (· ≤ ·) (outRow F W D firstShellMode f w) ∧
      (outRow F W D firstShellMode f w).length = 4) ∧
    outRow 1 6 Dex6 firstShellMode 0 0 = [1, 2, 3, 5] := by
  constructor
  · intro F W D f w hWF h5 hf hw
    have key := fs_values_offdiag F W D f w hWF (by omega) hf hw
    refine ⟨key, ?_, ?_⟩
    · rw [key]
      exact List.Pairwise.sublist (List.take_sublist 4 _) (sorted_sortRow _)
    · rw [key, List.length_take, length_sortRow, length_offdiagRow W D f w hw]
      omega
  · decide

/-- Witness for C1: the universal part applied to the spec's concrete
scenario tensor. -/
theorem firstshell_four_smallest_witness :
    outRow 1 6 Dex6 firstShellMode 0 0 = (sortRow (offdiagRow 6 Dex6 0 0)).take 4 ∧
    (outRow 1 6 Dex6 firstShellMode 0 0).length = 4 :=
  ⟨(firstshell_four_smallest.1 1 6 Dex6 0 0 (by decide) (by decide) (by decide)
      (by decide)).1,
   (firstshell_four_smallest.1 1 6 Dex6 0 0 (by decide) (by decide) (by decide)
      (by decide)).2.2⟩

/-- C3: for every well-formed tensor with zero diagonal, nonnegative entries
and `W ≥ 2`, `extract(D, "all")` returns per in-range `(frame, water)` pair
exactly `W - 1` distances in non-decreasing order whose multiset equals
`{D[f, w, j] : j ≠ w}` (the self-distance is the single entry removed after
the ascending sort of the row). -/
theorem all_mode_sorted_offdiag_perm :
    ∀ F W : ℕ, ∀ D : Tensor, ∀ f w : ℕ,
      WellFormed F W D → 2 ≤ W → f < F → w < W →
      List.Sorted (· ≤ ·) (outRow F W D allMode f w) ∧
      (outRow F W D allMode f w).length = W - 1 ∧
      List.Perm (outRow F W D allMode f w) (offdiagRow W D f w) := by
  intro F W D f w hWF h2 hf hw
  have key := all_values_offdiag F W D f w hWF h2 hf hw
  refine ⟨?_, ?_, ?_⟩
  · rw [key]; exact sorted_sortRow _
  · rw [key, length_sortRow, length_offdiagRow W D f w hw]
  · rw [key]; exact perm_sortRow _

/-- Witness for C3: applied to the concrete 6-water scenario tensor. -/
theorem all_mode_sorted_offdiag_perm_witness :
    List.Sorted (· ≤ ·) (outRow 1 6 Dex6 allMode 0 0) ∧
    (outRow 1 6 Dex6 allMode 0 0).length = 6 - 1 ∧
    List.Perm (outRow 1 6 Dex6 allMode 0 0) (offdiagRow 6 Dex6 0 0) :=
  all_mode_sorted_offdiag_perm 1 6 Dex6 0 0 (by decide) (by decide) (by decide) (by decide)

/-- C10: for every well-formed tensor with `W ≥ 5`, the `firstshell` output
row equals the first 4 entries of the `all` output row: the value-sort path
of `all` and the argsort-then-gather path of `firstshell` agree on the 4
smallest off-diagonal distances. -/
theorem firstshell_eq_take_all :
    ∀ F W : ℕ, ∀ D : Tensor, ∀ f w : ℕ,
      WellFormed F W D → 5 ≤ W → f < F → w < W →
      outRow F W D firstShellMode f w = (outRow F W D allMode f w).take 4 := by
  intro F W D f w hWF h5 hf hw
  rw [fs_values_offdiag F W D f w hWF (by omega) hf hw,
    all_values_offdiag F W D f w hWF (by omega) hf hw]

/-- Witness for C10: applied to the concrete 6-water scenario tensor. -/
theorem firstshell_eq_take_all_witness :
    outRow 1 6 Dex6 firstShellMode 0 0 = (outRow 1 6 Dex6 allMode 0 0).take 4 :=
  firstshell_eq_take_all 1 6 Dex6 0 0 (by decide) (by decide) (by decide) (by decide)

/-- C2: for every well-formed tensor with `W ≥ 5`, `extract(D, "secondshell")`
returns per in-range `(frame, water)` pair exactly 16 distances, where entry
`4*k + m` equals `D[f, w, FS[f, FS[f,w,k], m]]` with `FS` the first-shell
index list: the indices come from the first shells of `w`'s first-shell
neighbours but the distances are looked up in water `w`'s own row.  On the
concrete 6-water tensor the result of water 0 starts with the self-distance
`D[0,0,0]` (water 0 lies in its neighbour's first shell), is not sorted and
contains duplicates. -/
theorem secondshell_neighbor_gather :
    (∀ F W : ℕ, ∀ D : Tensor, ∀ f w k m : ℕ,
      WellFormed F W D → 5 ≤ W → f < F → w < W → k < 4 → m < 4 →
      (outRow F W D secondShellMode f w).length = 16 ∧
      (outRow F W D secondShellMode f w).getD (4 * k + m) 0 =
        D f w ((firstShellInds W D f ((firstShellInds W D f w).getD k 0)).getD m 0)) ∧
    ((outRow 1 6 Dex6 secondShellMode 0 0).getD 0 0 = Dex6 0 0 0 ∧
     ¬ List.Sorted (· ≤ ·) (outRow 1 6 Dex6 secondShellMode 0 0) ∧
     ¬ (outRow 1 6 Dex6 secondShellMode 0 0).Nodup) := by
  constructor
  · intro F W D f w k m hWF h5 hf hw hk hm
    have h2 : 2 ≤ W := by omega
    rw [outRow_secondShell F W D f w h2 hf hw]
    constructor
    · rw [List.length_map, length_secondShellInds W D f w h5]
    · rw [secondShellInds, List.map_flatMap]
      rw [flatMap_getD_four _ 0
        (fun j => by rw [List.length_map, length_firstShellInds_of_ge W D f j h5]) _ k m
        (by rw [length_firstShellInds_of_ge W D f w h5]; exact hk) hm]
      rw [getD_map_rat _ _ _ (by
        rw [length_firstShellInds_of_ge W D f _ h5]; exact hm)]
  · exact ⟨by decide, by decide, by decide⟩

/-- Witness for C2: the universal part applied to the concrete 6-water
tensor at `k = 0`, `m = 0`; the gathered index there is water 0 itself. -/
theorem secondshell_neighbor_gather_witness :
    (outRow 1 6 Dex6 secondShellMode 0 0).length = 16 ∧
    (outRow 1 6 Dex6 secondShellMode 0 0).getD 0 0 =
      Dex6 0 0 ((firstShellInds 6 Dex6 0 ((firstShellInds 6 Dex6 0 0).getD 0 0)).getD 0 0) :=
  ⟨(secondshell_neighbor_gather.1 1 6 Dex6 0 0 0 0 (by decide) (by decide) (by decide)
      (by decide) (by decide) (by decide)).1,
   (secondshell_neighbor_gather.1 1 6 Dex6 0 0 0 0 (by decide) (by decide) (by decide)
      (by decide) (by decide) (by decide)).2⟩

/-- C4: for every well-formed tensor with `W ≥ 5` and every in-range
`(frame, water)` pair, the `bothshells` output row is the concatenation of
the `firstshell` output row (4 entries) followed by the `secondshell` output
row (16 entries), 20 distances in total. -/
theorem bothshells_concat_first_second :
    ∀ F W : ℕ, ∀ D : Tensor, ∀ f w : ℕ,
      WellFormed F W D → 5 ≤ W → f < F → w < W →
      outRow F W D bothShellsMode f w =
        outRow F W D firstShellMode f w ++ outRow F W D secondShellMode f w ∧
      (outRow F W D firstShellMode f w).length = 4 ∧
      (outRow F W D secondShellMode f w).length = 16 ∧
      (outRow F W D bothShellsMode f w).length = 20 := by
  intro F W D f w hWF h5 hf hw
  have h2 : 2 ≤ W := by omega
  have hb := outRow_bothShells F W D f w h2 hf hw
  have hfs := outRow_firstShell F W D f w h2 hf hw
  have hss := outRow_secondShell F W D f w h2 hf hw
  have hlen1 : (outRow F W D firstShellMode f w).length = 4 := by
    rw [hfs, List.length_map, length_firstShellInds_of_ge W D f w h5]
  have hlen2 : (outRow F W D secondShellMode f w).length = 16 := by
    rw [hss, List.length_map, length_secondShellInds W D f w h5]
  have hcat : outRow F W D bothShellsMode f w =
      outRow F W D firstShellMode f w ++ outRow F W D secondShellMode f w := by
    rw [hb, hfs, hss, List.map_append]
  refine ⟨hcat, hlen1, hlen2, ?_⟩
  rw [hcat, List.length_append, hlen1, hlen2]

/-- Witness for C4: applied to the concrete 6-water scenario tensor. -/
theorem bothshells_concat_first_second_witness :
    outRow 1 6 Dex6 bothShellsMode 0 0 =
      outRow 1 6 Dex6 firstShellMode 0 0 ++ outRow 1 6 Dex6 secondShellMode 0 0 ∧
    (outRow 1 6 Dex6 bothShellsMode 0 0).length = 20 :=
  ⟨(bothshells_concat_first_second 1 6 Dex6 0 0 (by decide) (by decide) (by decide)
      (by decide)).1,
   (bothshells_concat_first_second 1 6 Dex6 0 0 (by decide) (by decide) (by decide)
      (by decide)).2.2.2⟩

/-- C5: `extract` fails with the invalid-mode error if and only if the mode,
compared case-insensitively, is not one of the four recognised values; the
error is raised before any computation touches the distance tensor (the
result on an invalid mode does not depend on the tensor); and the
mixed-case mode string `"FirstShell"` is accepted, producing the same output
as `"firstshell"`. -/
theorem invalid_mode_iff :
    (∀ F W : ℕ, ∀ D : Tensor, ∀ which : String,
      (extract F W D which = .error .invalidMode ↔ strLower which ∉ possibleWhich)) ∧
    (∀ F W : ℕ, ∀ D D' : Tensor, ∀ which : String,
      strLower which ∉ possibleWhich → extract F W D which = extract F W D' which) ∧
    extractOut 1 6 Dex6 mixedCaseMode = extractOut 1 6 Dex6 firstShellMode ∧
    extractOut 1 6 Dex6 mixedCaseMode ≠ .error .invalidMode := by
  refine ⟨?_, ?_, by decide, by decide⟩
  · intro F W D which
    simp only [extract]
    split_ifs with h1 h2 h3 <;> simp_all
  · intro F W D D' which h
    simp only [extract]
    rw [if_neg h, if_neg h]

/-- Witness for C5: at the concrete invalid mode `"banana"` the call fails
with the invalid-mode error and the result is independent of the tensor. -/
theorem invalid_mode_iff_witness :
    extract 1 6 Dex6 bananaMode = .error .invalidMode ∧
    extract 1 1 Dex2 bananaMode = extract 1 1 Dex6 bananaMode :=
  ⟨(invalid_mode_iff.1 1 6 Dex6 bananaMode).mpr (by decide),
   invalid_mode_iff.2.1 1 1 Dex2 Dex6 bananaMode (by decide)⟩

/-- C6: for every input with fewer than 2 waters and any valid mode,
`extract` fails with the insufficient-data error instead of returning a
result (in the source: with fewer than two waters the pair-index list is
empty and indexing with it raises `IndexError` before any distance is
computed). -/
theorem too_few_waters_error :
    ∀ F W : ℕ, ∀ D : Tensor, ∀ which : String,
      strLower which ∈ possibleWhich → W < 2 →
      extract F W D which = .error .insufficientData := by
  intro F W D which h1 h2
  simp only [extract]
  rw [if_pos h1, if_neg (by omega)]

/-- Witness for C6: a single water (`W = 1`) with mode `"all"`. -/
theorem too_few_waters_error_witness :
    extract 1 1 Dex2 allMode = .error .insufficientData :=
  too_few_waters_error 1 1 Dex2 allMode (by decide) (by decide)

/-- C7 counterexample: the claim "extract performs no in-place mutation of
the input distance tensor for every valid mode" is false.  In `all` mode the
source executes `distances.sort()`, an in-place sort of the tensor's last
axis: on the two-water tensor with rows `[0, 5]` and `[5, 0]`, entry
`(0, 1, 0)` is `5` before the call and `0` after it. -/
theorem extract_pure_counterexample :
    extractTensorAfter 1 2 Dex2 allMode 0 1 0 ≠ Dex2 0 1 0 := by decide

/-- C7 amended: `extract` performs no in-place mutation of the input tensor
for the three shell modes, but in `all` mode it sorts each in-range row of
the tensor in place (entry `(f, w, j)` afterwards holds the `j`-th smallest
value of row `(f, w)`); in every mode two calls with identical inputs yield
identical outputs. -/
theorem extract_mutation_amended :
    (∀ F W : ℕ, ∀ D : Tensor, ∀ which : String,
      strContainsShell (strLower which) = true →
      extractTensorAfter F W D which = D) ∧
    (∀ F W : ℕ, ∀ D : Tensor, ∀ f w j : ℕ,
      2 ≤ W → f < F → w < W → j < W →
      extractTensorAfter F W D allMode f w j = (sortRow (waterRow W D f w)).getD j 0) ∧
    (∀ F W : ℕ, ∀ D : Tensor, ∀ which : String,
      extract F W D which = extract F W D which) := by
  refine ⟨?_, ?_, fun _ _ _ _ => rfl⟩
  · intro F W D which h3
    unfold extractTensorAfter
    simp only [extract]
    split_ifs with h1 h2 <;> simp_all
  · intro F W D f w j h2 hf hw hj
    unfold extractTensorAfter
    rw [extract_of_sortMode F W D allMode (by decide) h2 (by decide)]
    simp only [sortedTensor]
    rw [if_pos ⟨hf, hw, hj⟩]

/-- Witness for C7 amended: a shell-mode call leaves the concrete 6-water
tensor untouched, and an `all`-mode call on the two-water tensor leaves the
sorted row value at entry `(0, 1, 0)`. -/
theorem extract_mutation_amended_witness :
    extractTensorAfter 1 6 Dex6 firstShellMode = Dex6 ∧
    extractTensorAfter 1 2 Dex2 allMode 0 1 0 = (sortRow (waterRow 2 Dex2 0 1)).getD 0 0 :=
  ⟨extract_mutation_amended.1 1 6 Dex6 firstShellMode (by decide),
   extract_mutation_amended.2.1 1 2 Dex2 0 1 0 (by decide) (by decide) (by decide)
     (by decide)⟩

/-- C9: for every tensor with `2 ≤ W < 5`, every valid mode succeeds (no
error is raised: numpy slicing truncates silently), and the `firstshell`
output row for every in-range `(frame, water)` pair has length `W - 1`
rather than 4. -/
theorem small_W_truncates :
    ∀ F W : ℕ, ∀ D : Tensor, ∀ which : String, ∀ f w : ℕ,
      2 ≤ W → W < 5 → strLower which ∈ possibleWhich →
      (∃ o, extract F W D which = .ok o) ∧
      (f < F → w < W → (outRow F W D firstShellMode f w).length = W - 1) := by
  intro F W D which f w h2 h5 h1
  constructor
  · simp only [extract]
    rw [if_pos h1, if_pos h2]
    split
    · exact ⟨_, rfl⟩
    · exact ⟨_, rfl⟩
  · intro hf hw
    rw [outRow_firstShell F W D f w h2 hf hw, List.length_map, length_firstShellInds]
    omega

/-- Witness for C9: three waters, mode `"firstshell"`: the call succeeds and
water 0's first-shell row has 2 entries instead of 4. -/
theorem small_W_truncates_witness :
    (∃ o, extract 1 3 Dex2 firstShellMode = .ok o) ∧
    (outRow 1 3 Dex2 firstShellMode 0 0).length = 3 - 1 :=
  ⟨(small_W_truncates 1 3 Dex2 firstShellMode 0 0 (by decide) (by decide) (by decide)).1,
   (small_W_truncates 1 3 Dex2 firstShellMode 0 0 (by decide) (by decide)
      (by decide)).2 (by decide) (by decide)⟩
